import Mathlib

/-
Verification of the dynamic state/derivative composition layer of the
QSDsan sanitation-unit library (files qsdsan/sanunits/_abstract.py and
qsdsan/sanunits/_pumping.py), shallowly embedded over exact rationals.

A state vector is a list of component concentrations followed by one
total-flow entry, mirroring the numpy arrays of the source.  Vectorised
numpy expressions are embedded index-wise over lists of rationals.
-/

/-- Last entry of a numpy-style row, as in the slice r[-1]. -/
def lastD (r : List ℚ) : ℚ := r.getD (r.length - 1) 0

/-- All entries but the last, as in the slice r[:-1]. -/
def dropLastL (r : List ℚ) : List ℚ := r.take (r.length - 1)

/-- Entry j of the vector-matrix product v @ m, where m is a list of rows:
sum over i of v i * m i j. -/
def dotCol (v : List ℚ) (m : List (List ℚ)) (j : ℕ) : ℚ :=
  (List.zipWith (fun a row => a * row.getD j 0) v m).sum

/-- Helper: indexing a mapped list inside its bounds. -/
theorem getD_map_rat (f : ℚ → ℚ) (a : List ℚ) (j : ℕ) (h : j < a.length) :
    (a.map f).getD j 0 = f (a.getD j 0) := by
  induction a generalizing j with
  | nil => simp at h
  | cons x xs ih =>
    cases j with
    | zero => rfl
    | succ k => exact ih k (by simpa using h)

/-- Helper: indexing a range-map list inside its bounds. -/
theorem getD_range_map (f : ℕ → ℚ) (n j : ℕ) (h : j < n) :
    ((List.range n).map f).getD j 0 = f j := by
  induction n generalizing f j with
  | zero => simp at h
  | succ m ih =>
    rcases Nat.lt_or_ge j m with hj | hj
    · rw [List.range_succ, List.map_append]
      have hlen : j < ((List.range m).map f).length := by simpa using hj
      rw [List.getD, List.get?_append hlen]
      exact ih f j hj
    · have hjm : j = m := Nat.le_antisymm (Nat.lt_succ_iff.mp h) hj
      subst hjm
      rw [List.range_succ, List.map_append]
      have hlen : ((List.range j).map f).length = j := by simp
      rw [List.getD, List.get?_append_right (by omega)]
      simp [hlen]

/-- Helper: indexing the left part of an append. -/
theorem getD_append_left_rat (a b : List ℚ) (j : ℕ) (h : j < a.length) :
    (a ++ b).getD j 0 = a.getD j 0 := by
  rw [List.getD, List.get?_append h, List.getD]

/-- Helper: the appended last element sits at index a.length. -/
theorem getD_append_last_rat (a : List ℚ) (x : ℚ) :
    (a ++ [x]).getD a.length 0 = x := by
  rw [List.getD, List.get?_append_right (Nat.le_refl _)]
  simp

/-- Helper: indexing an elementwise product inside the bounds of both factors. -/
theorem getD_zipWith_mul (a b : List ℚ) (j : ℕ)
    (ha : j < a.length) (hb : j < b.length) :
    (List.zipWith (fun x y => x * y) a b).getD j 0 = a.getD j 0 * b.getD j 0 := by
  induction a generalizing b j with
  | nil => simp at ha
  | cons x xs ih =>
    cases b with
    | nil => simp at hb
    | cons y ys =>
      cases j with
      | zero => rfl
      | succ k => exact ih ys k (by simpa using ha) (by simpa using hb)

/-- Helper: length of an elementwise product. -/
theorem length_zipWith_mul (a b : List ℚ) :
    (List.zipWith (fun x y => x * y) a b).length = min a.length b.length := by
  simp

/-- Helper: mapping every entry to zero yields the zero vector of the same
length (the numpy expression arr * 0.). -/
theorem map_zero_eq_replicate (l : List ℚ) :
    l.map (fun _ => (0 : ℚ)) = List.replicate l.length 0 := by
  induction l with
  | nil => rfl
  | cons x xs ih => simp [ih, List.replicate_succ]

/-- A stream buffer: material content plus the dynamic state and
derivative slots written by its producing unit (the _state and _dstate
attributes the source sets on output streams). -/
structure StreamBuf where
  mass : List ℚ
  state : Option (List ℚ)
  dstate : Option (List ℚ)
deriving Repr, DecidableEq

/-- Modelled from the spec: the stream `empty` operation (external to
these source files) clears the material content of the buffer. -/
def StreamBuf.emptied (s : StreamBuf) : StreamBuf :=
  { s with mass := List.replicate s.mass.length 0 }

/-- A dynamic unit: its state vector, derivative vector (either may be
undefined, i.e. the Python None) and its output stream buffers. -/
structure DynUnit where
  state : Option (List ℚ)
  dstate : Option (List ℚ)
  outs : List StreamBuf
deriving Repr, DecidableEq

/-- Mixer._update_dstate (same body for Pump and HydraulicDelay): writes
the unit derivative vector into the derivative slot of output 0. -/
def Mixer.update_dstate (u : DynUnit) : DynUnit :=
  { u with outs := u.outs.set 0 { (u.outs.getD 0 ⟨[], none, none⟩) with dstate := u.dstate } }

-- %% Mixer (qsdsan/sanunits/_abstract.py)

/-- Mixer._init_state: given the matrix of input state rows (rows = inputs,
each row = concentrations then flow), returns the pair
(state, dstate).  One or fewer inputs: the first row verbatim; several
inputs: append(Qs @ Cs / Qs.sum(), Qs.sum()).  dstate = state * 0. -/
def Mixer.init_state (QCs : List (List ℚ)) : List ℚ × List ℚ :=
  let st :=
    if QCs.length ≤ 1 then QCs.getD 0 []
    else
      let Qs := QCs.map lastD
      let Cs := QCs.map dropLastL
      let n := (QCs.getD 0 []).length - 1
      ((List.range n).map (fun j => dotCol Qs Cs j / Qs.sum)) ++ [Qs.sum]
  (st, st.map (fun _ => 0))

/-- Mixer._compile_ODE inner function dy_dt: n_ins is the captured number
of inputs, QC_ins and dQC_ins the matrices of upstream states and
derivatives.  Returns the new derivative vector of the Mixer (the source
writes C_dot into dstate[:-1] and Q_dot into dstate[-1], overwriting every
entry; with a single input it rebinds dstate to dQC_ins[0]). -/
def Mixer.dy_dt (n_ins : ℕ) (QC_ins dQC_ins : List (List ℚ)) : List ℚ :=
  if 1 < n_ins then
    let Q_ins := QC_ins.map lastD
    let C_ins := QC_ins.map dropLastL
    let dQ_ins := dQC_ins.map lastD
    let dC_ins := dQC_ins.map dropLastL
    let Q := Q_ins.sum
    let n := (QC_ins.getD 0 []).length - 1
    let C := (List.range n).map (fun j => dotCol Q_ins C_ins j / Q)
    let Q_dot := dQ_ins.sum
    let C_dot := (List.range n).map
      (fun j => (dotCol dQ_ins C_ins j + dotCol Q_ins dC_ins j - Q_dot * C.getD j 0) / Q)
    C_dot ++ [Q_dot]
  else dQC_ins.getD 0 []

/-- One evaluation of the compiled Mixer ODE: dy_dt sets the unit
derivative vector, then _update_dstate propagates it to output 0. -/
def Mixer.ode_apply (n_ins : ℕ) (u : DynUnit) (QC_ins dQC_ins : List (List ℚ)) : DynUnit :=
  Mixer.update_dstate { u with dstate := some (Mixer.dy_dt n_ins QC_ins dQC_ins) }

/-- C9: Mixer init_state gives the single input row verbatim when there is
one input; with several inputs the last entry is the total flow
sum of the Q entries and entry j is the flow-weighted average
(sum of Q i * C i j) / (sum of Q i); the derivative vector is the zero
vector of the same shape. -/
theorem mixer_init_state_spec (QCs : List (List ℚ)) (n : ℕ)
    (hne : QCs ≠ [])
    (hrow : ∀ r ∈ QCs, r.length = n + 1) :
    (QCs.length = 1 → (Mixer.init_state QCs).1 = QCs.getD 0 []) ∧
    (1 < QCs.length →
      (Mixer.init_state QCs).1.length = n + 1 ∧
      (Mixer.init_state QCs).1.getD n 0 = (QCs.map lastD).sum ∧
      (∀ j < n, (Mixer.init_state QCs).1.getD j 0 =
        dotCol (QCs.map lastD) (QCs.map dropLastL) j / (QCs.map lastD).sum)) ∧
    (Mixer.init_state QCs).2 =
      List.replicate ((Mixer.init_state QCs).1.length) 0 := by
  cases QCs with
  | nil => exact absurd rfl hne
  | cons q rest =>
    have hq : q.length = n + 1 := hrow q (List.mem_cons_self _ _)
    have hn : q.length - 1 = n := by omega
    refine ⟨?_, ?_, ?_⟩
    · intro h1
      simp only [Mixer.init_state]
      rw [if_pos (by omega)]
    · intro hlt
      have hif : ¬ ((q :: rest).length ≤ 1) := by
        simp only [List.length_cons] at hlt ⊢; omega
      refine ⟨?_, ?_, ?_⟩
      · simp only [Mixer.init_state, if_neg hif, List.getD_cons_zero]
        simp [hn]
      · simp only [Mixer.init_state, if_neg hif, List.getD_cons_zero]
        have hlen : ((List.range (q.length - 1)).map
            (fun j => dotCol ((q :: rest).map lastD) ((q :: rest).map dropLastL) j /
              ((q :: rest).map lastD).sum)).length = n := by
          simp [hn]
        rw [← hlen, getD_append_last_rat]
      · intro j hj
        simp only [Mixer.init_state, if_neg hif, List.getD_cons_zero]
        rw [getD_append_left_rat _ _ j (by simp [hn]; omega), hn,
          getD_range_map _ n j hj]
    · simp only [Mixer.init_state]
      exact map_zero_eq_replicate _

/-- C9 witness: the spec example, two inputs Q1 = 10, C1 = [100, 0] and
Q2 = 5, C2 = [0, 200] give total flow 15 and concentrations 200/3, which
is within 0.001 of 66.667; the derivative vector starts at zero. -/
theorem mixer_init_state_spec_witness :
    (Mixer.init_state [[100, 0, 10], [0, 200, 5]]).1.getD 2 0 = 15 ∧
    (Mixer.init_state [[100, 0, 10], [0, 200, 5]]).1.getD 0 0 = 200 / 3 ∧
    (Mixer.init_state [[100, 0, 10], [0, 200, 5]]).1.getD 1 0 = 200 / 3 ∧
    |(200 : ℚ) / 3 - 66667 / 1000| ≤ 1 / 1000 ∧
    (Mixer.init_state [[100, 0, 10], [0, 200, 5]]).2 = [0, 0, 0] := by
  have h := mixer_init_state_spec [[100, 0, 10], [0, 200, 5]] 2
    (by decide) (by decide)
  have h2 := h.2.1 (by decide)
  refine ⟨?_, ?_, ?_, abs_le.mpr ⟨by norm_num, by norm_num⟩, ?_⟩
  · rw [h2.2.1]; simp [lastD]; norm_num
  · rw [h2.2.2 0 (by decide)]
    simp [dotCol, lastD, dropLastL]
    norm_num
  · rw [h2.2.2 1 (by decide)]
    simp [dotCol, lastD, dropLastL]
    norm_num
  · rw [h.2.2, h2.1]
    rfl

/-- Helper: indexing an append at the length of the left part. -/
theorem getD_append_at_length (a : List ℚ) (x : ℚ) (n : ℕ) (h : a.length = n) :
    (a ++ [x]).getD n 0 = x := by
  subst h; exact getD_append_last_rat a x

/-- C1: the compiled Mixer ODE with several inputs writes, into the unit
derivative vector, dQ = sum of the upstream flow derivatives as the last
entry and, for every concentration index j,
dC j = (sum dQ i * C i j + sum Q i * dC i j - dQ * C j) / Q with
Q = sum Q i and C j = (sum Q i * C i j) / Q, the exact quotient-rule
formula; with exactly one input the derivative vector becomes the single
upstream derivative row unchanged; in both cases the result is propagated
to the derivative slot of the single output buffer. -/
theorem mixer_compile_ODE_spec (QC_ins dQC_ins : List (List ℚ)) (n : ℕ)
    (hrow : ∀ r ∈ QC_ins, r.length = n + 1)
    (u : DynUnit) (o : StreamBuf) (houts : u.outs = [o]) :
    ((Mixer.ode_apply QC_ins.length u QC_ins dQC_ins).dstate
        = some (Mixer.dy_dt QC_ins.length QC_ins dQC_ins) ∧
     (Mixer.ode_apply QC_ins.length u QC_ins dQC_ins).outs
        = [{ o with dstate := some (Mixer.dy_dt QC_ins.length QC_ins dQC_ins) }]) ∧
    (QC_ins.length = 1 →
       Mixer.dy_dt QC_ins.length QC_ins dQC_ins = dQC_ins.getD 0 []) ∧
    (1 < QC_ins.length →
      (Mixer.dy_dt QC_ins.length QC_ins dQC_ins).length = n + 1 ∧
      (Mixer.dy_dt QC_ins.length QC_ins dQC_ins).getD n 0 = (dQC_ins.map lastD).sum ∧
      ∀ j < n, (Mixer.dy_dt QC_ins.length QC_ins dQC_ins).getD j 0 =
        (dotCol (dQC_ins.map lastD) (QC_ins.map dropLastL) j
          + dotCol (QC_ins.map lastD) (dQC_ins.map dropLastL) j
          - (dQC_ins.map lastD).sum *
              (dotCol (QC_ins.map lastD) (QC_ins.map dropLastL) j / (QC_ins.map lastD).sum))
          / (QC_ins.map lastD).sum) := by
  refine ⟨⟨rfl, ?_⟩, ?_, ?_⟩
  · simp [Mixer.ode_apply, Mixer.update_dstate, houts]
  · intro h1
    simp only [Mixer.dy_dt, h1]
    rw [if_neg (by omega)]
  · intro hlt
    obtain ⟨q, rest, rfl⟩ : ∃ q rest, QC_ins = q :: rest := by
      cases QC_ins with
      | nil => simp at hlt
      | cons a b => exact ⟨a, b, rfl⟩
    have hq : q.length = n + 1 := hrow q (List.mem_cons_self _ _)
    have hn : q.length - 1 = n := by omega
    refine ⟨?_, ?_, ?_⟩
    · simp only [Mixer.dy_dt, if_pos hlt, List.getD_cons_zero]
      simp [hn]
    · simp only [Mixer.dy_dt, if_pos hlt, List.getD_cons_zero]
      exact getD_append_at_length _ _ _ (by simp [hn])
    · intro j hj
      simp only [Mixer.dy_dt, if_pos hlt, List.getD_cons_zero]
      rw [getD_append_left_rat _ _ j (by simpa [hn] using hj), hn,
        getD_range_map _ n j hj, getD_range_map _ n j hj]

/-- C1 witness: two concrete inputs; the derivative vector is
[-18, 43, 9] by the quotient rule, and it reaches the output buffer. -/
theorem mixer_compile_ODE_spec_witness :
    (Mixer.dy_dt ([[100, 0, 10], [0, 200, 5]] : List (List ℚ)).length
        [[100, 0, 10], [0, 200, 5]] [[1, 2, 3], [4, 5, 6]]).getD 2 0 = 9 ∧
    (Mixer.dy_dt ([[100, 0, 10], [0, 200, 5]] : List (List ℚ)).length
        [[100, 0, 10], [0, 200, 5]] [[1, 2, 3], [4, 5, 6]]).getD 0 0 = -18 ∧
    (Mixer.dy_dt ([[100, 0, 10], [0, 200, 5]] : List (List ℚ)).length
        [[100, 0, 10], [0, 200, 5]] [[1, 2, 3], [4, 5, 6]]).getD 1 0 = 43 ∧
    (Mixer.ode_apply ([[100, 0, 10], [0, 200, 5]] : List (List ℚ)).length
        ⟨none, none, [⟨[], none, none⟩]⟩
        [[100, 0, 10], [0, 200, 5]] [[1, 2, 3], [4, 5, 6]]).dstate =
      some (Mixer.dy_dt ([[100, 0, 10], [0, 200, 5]] : List (List ℚ)).length
        [[100, 0, 10], [0, 200, 5]] [[1, 2, 3], [4, 5, 6]]) := by
  have h := mixer_compile_ODE_spec [[100, 0, 10], [0, 200, 5]] [[1, 2, 3], [4, 5, 6]] 2
    (by decide) ⟨none, none, [⟨[], none, none⟩]⟩ ⟨[], none, none⟩ rfl
  have hm := h.2.2 (by decide)
  refine ⟨?_, ?_, ?_, h.1.1⟩
  · rw [hm.2.1]; simp [lastD]; norm_num
  · rw [hm.2.2 0 (by decide)]; simp [dotCol, lastD, dropLastL]; norm_num
  · rw [hm.2.2 1 (by decide)]; simp [dotCol, lastD, dropLastL]; norm_num

-- %% Splitter (qsdsan/sanunits/_abstract.py)

/-- Splitter._init_state precomputation: the two scale vectors
append(s / s_flow, s_flow) and append((1 - s) / (1 - s_flow), 1 - s_flow),
where s_flow = s[components.index of the reference component]. -/
def Splitter.split_scales (s : List ℚ) (refIdx : ℕ) : List ℚ × List ℚ :=
  let s_flow := s.getD refIdx 0
  (s.map (fun x => x / s_flow) ++ [s_flow],
   s.map (fun x => (1 - x) / (1 - s_flow)) ++ [1 - s_flow])

/-- The state written to output 0: _split_out0_state * arr (elementwise). -/
def Splitter.out0_state (s : List ℚ) (refIdx : ℕ) (arr : List ℚ) : List ℚ :=
  List.zipWith (fun x y => x * y) (Splitter.split_scales s refIdx).1 arr

/-- The state written to output 1: _split_out1_state * arr (elementwise). -/
def Splitter.out1_state (s : List ℚ) (refIdx : ℕ) (arr : List ℚ) : List ℚ :=
  List.zipWith (fun x y => x * y) (Splitter.split_scales s refIdx).2 arr

/-- Splitter._update_state: stores arr as the unit state and writes the
scaled vectors into the state slots of outputs 0 and 1. -/
def Splitter.update_state (s : List ℚ) (refIdx : ℕ) (u : DynUnit) (arr : List ℚ) : DynUnit :=
  let b0 := { (u.outs.getD 0 ⟨[], none, none⟩) with state := some (Splitter.out0_state s refIdx arr) }
  let u1 := { u with state := some arr, outs := u.outs.set 0 b0 }
  let b1 := { (u1.outs.getD 1 ⟨[], none, none⟩) with state := some (Splitter.out1_state s refIdx arr) }
  { u1 with outs := u1.outs.set 1 b1 }

/-- Helper: the algebraic core of the splitter conservation identity. -/
theorem split_branch_alg (sref sj Q Cj : ℚ) (h0 : sref ≠ 0) (h1 : 1 - sref ≠ 0) :
    sref * Q * (sj / sref * Cj) + (1 - sref) * Q * ((1 - sj) / (1 - sref) * Cj) = Q * Cj := by
  field_simp
  ring

/-- C2: the Splitter scale vectors are append(s / s_ref, s_ref) and
append((1 - s) / (1 - s_ref), 1 - s_ref); update_state stores arr and
writes the two scaled vectors into the output buffers; the branch flows
(last entries) add up to the total flow, and for every component index j
branch0_flow * branch0_conc j + branch1_flow * branch1_conc j equals
total_flow * total_conc j (exactly, over the rationals, whenever the
reference split fraction is neither 0 nor 1 so the divisions are defined). -/
theorem splitter_update_state_conservation (s arr : List ℚ) (n refIdx : ℕ)
    (hs : s.length = n) (harr : arr.length = n + 1) (href : refIdx < n)
    (hsr0 : s.getD refIdx 0 ≠ 0) (hsr1 : s.getD refIdx 0 ≠ 1)
    (u : DynUnit) (o0 o1 : StreamBuf) (houts : u.outs = [o0, o1]) :
    (Splitter.split_scales s refIdx).1
      = s.map (fun x => x / s.getD refIdx 0) ++ [s.getD refIdx 0] ∧
    (Splitter.split_scales s refIdx).2
      = s.map (fun x => (1 - x) / (1 - s.getD refIdx 0)) ++ [1 - s.getD refIdx 0] ∧
    (Splitter.update_state s refIdx u arr).state = some arr ∧
    (Splitter.update_state s refIdx u arr).outs =
      [{ o0 with state := some (Splitter.out0_state s refIdx arr) },
       { o1 with state := some (Splitter.out1_state s refIdx arr) }] ∧
    (Splitter.out0_state s refIdx arr).getD n 0
      + (Splitter.out1_state s refIdx arr).getD n 0 = arr.getD n 0 ∧
    ∀ j < n,
      (Splitter.out0_state s refIdx arr).getD n 0
          * (Splitter.out0_state s refIdx arr).getD j 0
        + (Splitter.out1_state s refIdx arr).getD n 0
          * (Splitter.out1_state s refIdx arr).getD j 0
      = arr.getD n 0 * arr.getD j 0 := by
  have hs0len : ((Splitter.split_scales s refIdx).1).length = n + 1 := by
    simp [Splitter.split_scales, hs]
  have hs1len : ((Splitter.split_scales s refIdx).2).length = n + 1 := by
    simp [Splitter.split_scales, hs]
  have hflow0 : ((Splitter.split_scales s refIdx).1).getD n 0 = s.getD refIdx 0 := by
    simp only [Splitter.split_scales]
    exact getD_append_at_length _ _ _ (by simp [hs])
  have hflow1 : ((Splitter.split_scales s refIdx).2).getD n 0 = 1 - s.getD refIdx 0 := by
    simp only [Splitter.split_scales]
    exact getD_append_at_length _ _ _ (by simp [hs])
  have hc0 : ∀ j < n, ((Splitter.split_scales s refIdx).1).getD j 0
      = s.getD j 0 / s.getD refIdx 0 := by
    intro j hj
    simp only [Splitter.split_scales]
    rw [getD_append_left_rat _ _ j (by simp [hs]; omega),
      getD_map_rat _ _ j (by omega)]
  have hc1 : ∀ j < n, ((Splitter.split_scales s refIdx).2).getD j 0
      = (1 - s.getD j 0) / (1 - s.getD refIdx 0) := by
    intro j hj
    simp only [Splitter.split_scales]
    rw [getD_append_left_rat _ _ j (by simp [hs]; omega),
      getD_map_rat _ _ j (by omega)]
  have hone : (1 : ℚ) - s.getD refIdx 0 ≠ 0 := sub_ne_zero.mpr (Ne.symm hsr1)
  refine ⟨rfl, rfl, rfl, ?_, ?_, ?_⟩
  · simp [Splitter.update_state, houts]
  · rw [Splitter.out0_state, Splitter.out1_state,
      getD_zipWith_mul _ _ n (by omega) (by omega),
      getD_zipWith_mul _ _ n (by omega) (by omega), hflow0, hflow1]
    ring
  · intro j hj
    rw [Splitter.out0_state, Splitter.out1_state,
      getD_zipWith_mul _ _ n (by omega) (by omega),
      getD_zipWith_mul _ _ n (by omega) (by omega),
      getD_zipWith_mul _ _ j (by omega) (by omega),
      getD_zipWith_mul _ _ j (by omega) (by omega),
      hflow0, hflow1, hc0 j hj, hc1 j hj]
    exact split_branch_alg _ _ _ _ hsr0 hone

/-- C2 witness: split ratios [1/2, 3/4] with reference component 1 and
state [2, 4, 10]: branch flows 15/2 and 5/2 sum to 10, and the mass of
component 0 is conserved (20 = 10 * 2). -/
theorem splitter_update_state_conservation_witness :
    (Splitter.out0_state [1/2, 3/4] 1 [2, 4, 10]).getD 2 0
      + (Splitter.out1_state [1/2, 3/4] 1 [2, 4, 10]).getD 2 0 = 10 ∧
    (Splitter.out0_state [1/2, 3/4] 1 [2, 4, 10]).getD 2 0
        * (Splitter.out0_state [1/2, 3/4] 1 [2, 4, 10]).getD 0 0
      + (Splitter.out1_state [1/2, 3/4] 1 [2, 4, 10]).getD 2 0
        * (Splitter.out1_state [1/2, 3/4] 1 [2, 4, 10]).getD 0 0 = 20 ∧
    (Splitter.update_state [1/2, 3/4] 1
      ⟨none, none, [⟨[], none, none⟩, ⟨[], none, none⟩]⟩ [2, 4, 10]).state
      = some [2, 4, 10] := by
  have h := splitter_update_state_conservation [1/2, 3/4] [2, 4, 10] 2 1
    (by decide) (by decide) (by decide)
    (by show (3/4 : ℚ) ≠ 0; norm_num) (by show (3/4 : ℚ) ≠ 1; norm_num)
    ⟨none, none, [⟨[], none, none⟩, ⟨[], none, none⟩]⟩ ⟨[], none, none⟩ ⟨[], none, none⟩ rfl
  refine ⟨?_, ?_, h.2.2.1⟩
  · rw [h.2.2.2.2.1]; show (10 : ℚ) = 10; rfl
  · rw [h.2.2.2.2.2 0 (by decide)]; show (10 : ℚ) * 2 = 20; norm_num

-- %% reset_cache (identical bodies in Mixer, Splitter, Pump; inherited
-- by HydraulicDelay)

/-- reset_cache: sets _state to None and empties every output stream.
The derivative vector _dstate is not touched by the source. -/
def reset_cache (u : DynUnit) : DynUnit :=
  { u with state := none, outs := u.outs.map StreamBuf.emptied }

/-- C4 counterexample: reset_cache leaves a previously set derivative
vector in place, so it does not set the Derivative Vector to undefined. -/
theorem reset_cache_counterexample :
    (reset_cache ⟨some [1], some [2], []⟩).dstate = some [2] ∧
    (some [2] : Option (List ℚ)) ≠ none := by
  exact ⟨rfl, by simp⟩

/-- C4 amended: reset_cache sets the state vector to undefined and
empties every owned output buffer; it needs no prior initialization and
is idempotent; the derivative vector is left exactly as it was. -/
theorem reset_cache_spec (u : DynUnit) :
    (reset_cache u).state = none ∧
    (reset_cache u).outs = u.outs.map StreamBuf.emptied ∧
    (reset_cache u).dstate = u.dstate ∧
    reset_cache (reset_cache u) = reset_cache u := by
  refine ⟨rfl, rfl, rfl, ?_⟩
  have hemp : ∀ s : StreamBuf, StreamBuf.emptied (StreamBuf.emptied s) = StreamBuf.emptied s := by
    intro s; simp [StreamBuf.emptied]
  simp [reset_cache, List.map_map, Function.comp, hemp]

-- %% update_state and the state property setter

/-- Mixer._update_state (same body in Pump): stores arr as the unit state
and writes it into the state slot of output 0, with no validation. -/
def Mixer.update_state (u : DynUnit) (arr : List ℚ) : DynUnit :=
  let b0 := { (u.outs.getD 0 ⟨[], none, none⟩) with state := some arr }
  { u with state := some arr, outs := u.outs.set 0 b0 }

/-- The state property setter of Splitter, Pump and HydraulicDelay:
raises ValueError unless the assigned vector has length
n_components + 1, and stores it without writing any output. Mixer has
no such setter. -/
def state_property_set (n_components : ℕ) (QCs : List ℚ) : Except String (List ℚ) :=
  if QCs.length ≠ n_components + 1 then
    Except.error "state must be a 1D array of length n_components + 1"
  else Except.ok QCs

/-- C5 counterexample: on a unit with 2 components, _update_state accepts
and stores a vector of length 1 without any shape failure. -/
theorem update_state_counterexample :
    (Mixer.update_state ⟨none, none, [⟨[], none, none⟩]⟩ [1]).state = some [1] ∧
    (Mixer.update_state ⟨none, none, [⟨[], none, none⟩]⟩ [1]).outs
      = [⟨[], some [1], none⟩] ∧
    ([1] : List ℚ).length ≠ 2 + 1 := by
  exact ⟨rfl, rfl, by decide⟩

/-- C5 amended: _update_state performs no validation: it stores any
vector and writes it into the output buffer; the shape check (length
must be n_components + 1, ValueError otherwise) lives in the separate
state property setter, which stores but writes no output. -/
theorem update_state_spec (u : DynUnit) (o : StreamBuf) (houts : u.outs = [o])
    (arr : List ℚ) (n_components : ℕ) :
    ((Mixer.update_state u arr).state = some arr ∧
     (Mixer.update_state u arr).outs = [{ o with state := some arr }]) ∧
    (state_property_set n_components arr = Except.ok arr ↔
      arr.length = n_components + 1) := by
  refine ⟨⟨rfl, ?_⟩, ?_⟩
  · simp [Mixer.update_state, houts]
  · constructor
    · intro h
      by_contra hne
      simp [state_property_set, hne] at h
    · intro h
      simp [state_property_set, h]

/-- C5 witness: a correctly sized vector is stored, propagated, and
accepted by the property setter; a short vector is rejected by the
setter alone. -/
theorem update_state_spec_witness :
    (Mixer.update_state ⟨none, none, [⟨[], none, none⟩]⟩ [7, 8, 9]).state = some [7, 8, 9] ∧
    (Mixer.update_state ⟨none, none, [⟨[], none, none⟩]⟩ [7, 8, 9]).outs
      = [⟨[], some [7, 8, 9], none⟩] ∧
    state_property_set 2 [7, 8, 9] = Except.ok [7, 8, 9] := by
  have h := update_state_spec ⟨none, none, [⟨[], none, none⟩]⟩ ⟨[], none, none⟩ rfl [7, 8, 9] 2
  exact ⟨h.1.1, h.1.2, h.2.mpr (by decide)⟩

-- %% Pump and HydraulicDelay (qsdsan/sanunits/_pumping.py)

/-- Pump._init_state: state = first collected input row, dstate = state * 0. -/
def Pump.init_state (ins_state : List (List ℚ)) : Option (List ℚ) × Option (List ℚ) :=
  let st := ins_state.getD 0 []
  (some st, some (st.map (fun _ => 0)))

/-- The numpy slice assignment st[:-1] = c: replaces the concentration
portion of st by c (lengths agree in the source). -/
def set_conc_portion (st c : List ℚ) : List ℚ :=
  c.take (st.length - 1) ++ st.drop (st.length - 1)

/-- HydraulicDelay._init_state: state = first collected input row, with
the concentration portion replaced by _concs when one was set via
set_init_conc.  No assignment to _dstate appears in the source, so the
derivative slot is returned unchanged. -/
def HydraulicDelay.init_state (concs : Option (List ℚ)) (ins_state : List (List ℚ))
    (dstate0 : Option (List ℚ)) : Option (List ℚ) × Option (List ℚ) :=
  let st := ins_state.getD 0 []
  (some (match concs with
         | some c => set_conc_portion st c
         | none => st),
   dstate0)

/-- C6 counterexample: on a HydraulicDelay with an unset derivative
vector, init_state applies the concentration override but leaves the
derivative vector undefined: it does not create it. -/
theorem hydraulic_delay_init_state_counterexample :
    (HydraulicDelay.init_state (some [5]) [[1, 2]] none).1 = some [5, 2] ∧
    (HydraulicDelay.init_state (some [5]) [[1, 2]] none).2 = none ∧
    (none : Option (List ℚ)) ≠ some (List.replicate 2 0) := by
  exact ⟨rfl, rfl, by simp⟩

/-- C6 amended: Pump init_state creates both vectors (state = the input
row verbatim, derivative = the zero vector of the same length);
HydraulicDelay init_state sets the state to the input row with the
concentration portion replaced by the override when one was set, and
returns the derivative slot unchanged (it does not create it). -/
theorem init_state_vectors_spec (ins_state : List (List ℚ)) (c : List ℚ)
    (d0 : Option (List ℚ))
    (hc : c.length = (ins_state.getD 0 []).length - 1) :
    (Pump.init_state ins_state).1 = some (ins_state.getD 0 []) ∧
    (Pump.init_state ins_state).2
      = some (List.replicate (ins_state.getD 0 []).length 0) ∧
    (HydraulicDelay.init_state none ins_state d0).1 = some (ins_state.getD 0 []) ∧
    (HydraulicDelay.init_state (some c) ins_state d0).1
      = some (c ++ (ins_state.getD 0 []).drop ((ins_state.getD 0 []).length - 1)) ∧
    (HydraulicDelay.init_state none ins_state d0).2 = d0 ∧
    (HydraulicDelay.init_state (some c) ins_state d0).2 = d0 := by
  refine ⟨rfl, ?_, rfl, ?_, rfl, rfl⟩
  · simp [Pump.init_state, map_zero_eq_replicate]
  · simp only [HydraulicDelay.init_state, set_conc_portion,
      List.take_of_length_le (le_of_eq hc)]

/-- C6 witness: a Pump and a HydraulicDelay on the input row [1, 2]. -/
theorem init_state_vectors_spec_witness :
    (Pump.init_state [[1, 2]]).1 = some [1, 2] ∧
    (Pump.init_state [[1, 2]]).2 = some [0, 0] ∧
    (HydraulicDelay.init_state (some [5]) [[1, 2]] (some [3, 3])).1 = some [5, 2] ∧
    (HydraulicDelay.init_state (some [5]) [[1, 2]] (some [3, 3])).2 = some [3, 3] := by
  have h := init_state_vectors_spec [[1, 2]] [5] (some [3, 3]) (by decide)
  exact ⟨h.1, h.2.1, h.2.2.2.1, h.2.2.2.2.2⟩

/-- HydraulicDelay._compile_ODE inner function dy_dt: T is the captured
time constant; the branches follow the source exactly, and the result
is the new derivative vector (concentration entries then flow entry). -/
def HydraulicDelay.dy_dt (T : ℚ) (QC_ins : List (List ℚ)) (QC : List ℚ)
    (dQC_ins : List (List ℚ)) : List ℚ :=
  let Q_in := lastD (QC_ins.getD 0 [])
  let Q := lastD QC
  let C_in := dropLastL (QC_ins.getD 0 [])
  let C := dropLastL QC
  if lastD (dQC_ins.getD 0 []) = 0 then
    (List.zipWith (fun cin c => (Q_in * cin - Q * c) / (Q * T)) C_in C) ++ [0]
  else
    (List.zipWith (fun cin c => Q_in / Q * (cin - c) / T) C_in C) ++ [(Q_in - Q) / T]

/-- One evaluation of the compiled HydraulicDelay ODE: dy_dt sets the
unit derivative vector, then _update_dstate (inherited from Pump, same
body as Mixer) propagates it to output 0. -/
def HydraulicDelay.ode_apply (T : ℚ) (u : DynUnit) (QC_ins : List (List ℚ))
    (QC : List ℚ) (dQC_ins : List (List ℚ)) : DynUnit :=
  Mixer.update_dstate { u with dstate := some (HydraulicDelay.dy_dt T QC_ins QC dQC_ins) }

/-- Helper: indexing a zipWith inside the bounds of both arguments. -/
theorem getD_zipWith_fn (f : ℚ → ℚ → ℚ) (a b : List ℚ) (j : ℕ)
    (ha : j < a.length) (hb : j < b.length) :
    (List.zipWith f a b).getD j 0 = f (a.getD j 0) (b.getD j 0) := by
  induction a generalizing b j with
  | nil => simp at ha
  | cons x xs ih =>
    cases b with
    | nil => simp at hb
    | cons y ys =>
      cases j with
      | zero => rfl
      | succ k => exact ih ys k (by simpa using ha) (by simpa using hb)

/-- Helper: indexing a take inside its bound. -/
theorem getD_take_rat (r : List ℚ) (m j : ℕ) (h : j < m) :
    (r.take m).getD j 0 = r.getD j 0 := by
  induction r generalizing m j with
  | nil => simp
  | cons x xs ih =>
    cases m with
    | zero => omega
    | succ m0 =>
      cases j with
      | zero => rfl
      | succ k => exact ih m0 k (by omega)

/-- C8: the compiled HydraulicDelay ODE follows the exact two-branch
rule: when the upstream flow derivative is zero,
dQ = 0 and dC j = (Q_in * C_in j - Q * C j) / (Q * T); otherwise
dQ = (Q_in - Q) / T and dC j = Q_in / Q * (C_in j - C j) / T; the
resulting derivative vector is propagated to the output buffer. -/
theorem hydraulic_delay_ODE_spec (T : ℚ) (QC_ins : List (List ℚ)) (QC : List ℚ)
    (dQC_ins : List (List ℚ)) (n : ℕ)
    (hin : (QC_ins.getD 0 []).length = n + 1) (hQC : QC.length = n + 1)
    (u : DynUnit) (o : StreamBuf) (houts : u.outs = [o]) :
    ((HydraulicDelay.ode_apply T u QC_ins QC dQC_ins).dstate
        = some (HydraulicDelay.dy_dt T QC_ins QC dQC_ins) ∧
     (HydraulicDelay.ode_apply T u QC_ins QC dQC_ins).outs
        = [{ o with dstate := some (HydraulicDelay.dy_dt T QC_ins QC dQC_ins) }]) ∧
    (HydraulicDelay.dy_dt T QC_ins QC dQC_ins).length = n + 1 ∧
    (lastD (dQC_ins.getD 0 []) = 0 →
      (HydraulicDelay.dy_dt T QC_ins QC dQC_ins).getD n 0 = 0 ∧
      ∀ j < n, (HydraulicDelay.dy_dt T QC_ins QC dQC_ins).getD j 0 =
        ((QC_ins.getD 0 []).getD n 0 * (QC_ins.getD 0 []).getD j 0
          - QC.getD n 0 * QC.getD j 0) / (QC.getD n 0 * T)) ∧
    (lastD (dQC_ins.getD 0 []) ≠ 0 →
      (HydraulicDelay.dy_dt T QC_ins QC dQC_ins).getD n 0
        = ((QC_ins.getD 0 []).getD n 0 - QC.getD n 0) / T ∧
      ∀ j < n, (HydraulicDelay.dy_dt T QC_ins QC dQC_ins).getD j 0 =
        (QC_ins.getD 0 []).getD n 0 / QC.getD n 0
          * ((QC_ins.getD 0 []).getD j 0 - QC.getD j 0) / T) := by
  have hQin : lastD (QC_ins.getD 0 []) = (QC_ins.getD 0 []).getD n 0 := by
    rw [lastD, hin]; norm_num
  have hQ : lastD QC = QC.getD n 0 := by
    rw [lastD, hQC]; norm_num
  have hCin_len : (dropLastL (QC_ins.getD 0 [])).length = n := by
    simp only [dropLastL, List.length_take, hin]
    omega
  have hC_len : (dropLastL QC).length = n := by
    simp only [dropLastL, List.length_take, hQC]
    omega
  have hCin_j : ∀ j < n, (dropLastL (QC_ins.getD 0 [])).getD j 0
      = (QC_ins.getD 0 []).getD j 0 := by
    intro j hj
    exact getD_take_rat _ _ j (by omega)
  have hC_j : ∀ j < n, (dropLastL QC).getD j 0 = QC.getD j 0 := by
    intro j hj
    exact getD_take_rat _ _ j (by omega)
  refine ⟨⟨rfl, ?_⟩, ?_, ?_, ?_⟩
  · simp [HydraulicDelay.ode_apply, Mixer.update_dstate, houts]
  · by_cases hb : lastD (dQC_ins.getD 0 []) = 0
    · simp only [HydraulicDelay.dy_dt, if_pos hb]
      rw [List.length_append, List.length_zipWith, hCin_len, hC_len]
      simp
    · simp only [HydraulicDelay.dy_dt, if_neg hb]
      rw [List.length_append, List.length_zipWith, hCin_len, hC_len]
      simp
  · intro hb
    constructor
    · simp only [HydraulicDelay.dy_dt, if_pos hb]
      exact getD_append_at_length _ _ _
        (by rw [List.length_zipWith, hCin_len, hC_len]; omega)
    · intro j hj
      simp only [HydraulicDelay.dy_dt, if_pos hb]
      rw [getD_append_left_rat _ _ j
          (by rw [List.length_zipWith, hCin_len, hC_len]; omega),
        getD_zipWith_fn _ _ _ j (by omega) (by omega),
        hCin_j j hj, hC_j j hj, hQin, hQ]
  · intro hb
    constructor
    · simp only [HydraulicDelay.dy_dt, if_neg hb]
      rw [getD_append_at_length _ _ _
          (by rw [List.length_zipWith, hCin_len, hC_len]; omega), hQin, hQ]
    · intro j hj
      simp only [HydraulicDelay.dy_dt, if_neg hb]
      rw [getD_append_left_rat _ _ j
          (by rw [List.length_zipWith, hCin_len, hC_len]; omega),
        getD_zipWith_fn _ _ _ j (by omega) (by omega),
        hCin_j j hj, hC_j j hj, hQin, hQ]

/-- C8 witness: with T = 2, upstream state [3, 4], own state [5, 8]: a
zero upstream flow derivative gives [-7/4, 0]; the flow derivative 1
gives [-1/2, -2]. -/
theorem hydraulic_delay_ODE_spec_witness :
    (HydraulicDelay.dy_dt 2 [[3, 4]] [5, 8] [[7, 0]]).getD 1 0 = 0 ∧
    (HydraulicDelay.dy_dt 2 [[3, 4]] [5, 8] [[7, 0]]).getD 0 0 = -7/4 ∧
    (HydraulicDelay.dy_dt 2 [[3, 4]] [5, 8] [[7, 1]]).getD 1 0 = -2 ∧
    (HydraulicDelay.dy_dt 2 [[3, 4]] [5, 8] [[7, 1]]).getD 0 0 = -1/2 ∧
    (HydraulicDelay.ode_apply 2 ⟨none, none, [⟨[], none, none⟩]⟩
        [[3, 4]] [5, 8] [[7, 0]]).dstate
      = some (HydraulicDelay.dy_dt 2 [[3, 4]] [5, 8] [[7, 0]]) := by
  have h0 := hydraulic_delay_ODE_spec 2 [[3, 4]] [5, 8] [[7, 0]] 1
    (by decide) (by decide) ⟨none, none, [⟨[], none, none⟩]⟩ ⟨[], none, none⟩ rfl
  have h1 := hydraulic_delay_ODE_spec 2 [[3, 4]] [5, 8] [[7, 1]] 1
    (by decide) (by decide) ⟨none, none, [⟨[], none, none⟩]⟩ ⟨[], none, none⟩ rfl
  have hz := h0.2.2.1 (by rfl)
  have hnz := h1.2.2.2 (by show (1 : ℚ) ≠ 0; norm_num)
  refine ⟨hz.1, ?_, ?_, ?_, h0.1.1⟩
  · rw [hz.2 0 (by decide)]
    show ((4 : ℚ) * 3 - 8 * 5) / (8 * 2) = -7/4
    norm_num
  · rw [hnz.1]
    show ((4 : ℚ) - 8) / 2 = -2
    norm_num
  · rw [hnz.2 0 (by decide)]
    show (4 : ℚ) / 8 * (3 - 5) / 2 = -1/2
    norm_num

/-- The dynamic attributes stored by HydraulicDelay.__init__: t_delay is
stored as given, with no positivity check, and _concs starts as None. -/
structure HydraulicDelayUnit where
  t_delay : ℚ
  concs : Option (List ℚ)
deriving Repr, DecidableEq

/-- HydraulicDelay.__init__ restricted to the attributes above: a total
function, every t_delay value is accepted and stored unchanged. -/
def HydraulicDelay.mk_unit (t_delay : ℚ) : HydraulicDelayUnit :=
  { t_delay := t_delay, concs := none }

/-- The default t_delay of the constructor signature, 1e-4. -/
def HydraulicDelay.default_t_delay : ℚ := 1 / 10000

/-- The denominators of every division performed by one evaluation of the
HydraulicDelay dy_dt body: in the dQ_in = 0 branch each of the
concentration entries divides by Q * T; otherwise the flow entry divides
by T and each concentration entry divides by Q and then by T.  The number
of concentration entries is the length of the zipWith in dy_dt. -/
def HydraulicDelay.ode_denominators (T : ℚ) (QC_ins : List (List ℚ)) (QC : List ℚ)
    (dQC_ins : List (List ℚ)) : List ℚ :=
  let Q := lastD QC
  let nC := min ((dropLastL (QC_ins.getD 0 [])).length) ((dropLastL QC).length)
  if lastD (dQC_ins.getD 0 []) = 0 then
    List.replicate nC (Q * T)
  else
    [T] ++ List.replicate nC Q ++ List.replicate nC T

/-- C10: the constructor stores any t_delay unvalidated (it is a total
function into the attribute record, with default 1e-4), and whenever
t_delay = 0 or the current flow entry of the state is 0, the evaluation
of the compiled derivative function performs a division by zero: 0 is
among the denominators it divides by (states carry at least one
component). -/
theorem hydraulic_delay_no_guard (t : ℚ) (QC_ins : List (List ℚ)) (QC : List ℚ)
    (dQC_ins : List (List ℚ)) (n : ℕ)
    (hin : (QC_ins.getD 0 []).length = n + 1) (hQC : QC.length = n + 1)
    (hn : 1 ≤ n) :
    (HydraulicDelay.mk_unit t).t_delay = t ∧
    (HydraulicDelay.mk_unit HydraulicDelay.default_t_delay).t_delay = 1 / 10000 ∧
    ((t = 0 ∨ lastD QC = 0) →
      (0 : ℚ) ∈ HydraulicDelay.ode_denominators t QC_ins QC dQC_ins) := by
  refine ⟨rfl, rfl, ?_⟩
  intro hz
  have hnC : min ((dropLastL (QC_ins.getD 0 [])).length) ((dropLastL QC).length) = n := by
    simp only [dropLastL, List.length_take, hin, hQC]
    omega
  have hQT : lastD QC * t = 0 := by
    rcases hz with h | h
    · rw [h, mul_zero]
    · rw [h, zero_mul]
  by_cases hb : lastD (dQC_ins.getD 0 []) = 0
  · simp only [HydraulicDelay.ode_denominators, if_pos hb, hnC]
    rw [← hQT]
    exact List.mem_replicate.mpr ⟨by omega, rfl⟩
  · simp only [HydraulicDelay.ode_denominators, if_neg hb, hnC]
    rcases hz with h | h
    · subst h
      exact List.mem_append_left _
        (List.mem_append_left _ (List.mem_singleton.mpr rfl))
    · refine List.mem_append_left _ (List.mem_append_right _ ?_)
      rw [← h]
      exact List.mem_replicate.mpr ⟨by omega, rfl⟩

/-- C10 witness: t_delay = 0 on a one-component state [5, 8]: zero is a
denominator of the evaluation in both branch shapes. -/
theorem hydraulic_delay_no_guard_witness :
    (HydraulicDelay.mk_unit 0).t_delay = 0 ∧
    (0 : ℚ) ∈ HydraulicDelay.ode_denominators 0 [[3, 4]] [5, 8] [[7, 0]] ∧
    (0 : ℚ) ∈ HydraulicDelay.ode_denominators 2 [[3, 4]] [5, 0] [[7, 1]] := by
  have h0 := hydraulic_delay_no_guard 0 [[3, 4]] [5, 8] [[7, 0]] 1
    (by decide) (by decide) (by decide)
  have h1 := hydraulic_delay_no_guard 2 [[3, 4]] [5, 0] [[7, 1]] 1
    (by decide) (by decide) (by decide)
  refine ⟨h0.1, h0.2.2 (Or.inl rfl), h1.2.2 (Or.inr ?_)⟩
  rfl

-- %% ComponentSplitter (qsdsan/sanunits/_abstract.py)

/-- Modelled from the spec: the external mix_from combines all inputs
into the final output buffer as the elementwise mass sum (components are
indexed 0..m-1 here, masses are per-component). -/
def ComponentSplitter.mix_from (ins : List (List ℚ)) (m : ℕ) : List ℚ :=
  ins.foldl (fun acc s => List.zipWith (fun x y => x + y) acc s) (List.replicate m 0)

/-- The enumerate loop of ComponentSplitter._run flattened: group number
i paired with each component of the group, groups numbered from i on. -/
def ComponentSplitter.flat_keys_from (i : ℕ) : List (List ℕ) → List (ℕ × ℕ)
  | [] => []
  | g :: rest => g.map (fun c => (i, c)) ++ ComponentSplitter.flat_keys_from (i + 1) rest

/-- All (group number, component) pairs of split_keys in loop order. -/
def ComponentSplitter.flat_keys (keys : List (List ℕ)) : List (ℕ × ℕ) :=
  ComponentSplitter.flat_keys_from 0 keys

/-- The inner loop of ComponentSplitter._run: for each (num, c) in order,
move the mass of component c from the last output into output num
(outs[num].imass[c] = last.imass[c]; last.imass[c] = 0), and only then
check whether c was already split, raising with the streams as mutated
so far.  On success returns the final outputs and last-output masses. -/
def ComponentSplitter.move_loop :
    List (ℕ × ℕ) → List (List ℚ) → List ℚ → List ℕ →
    Except (List (List ℚ) × List ℚ) (List (List ℚ) × List ℚ)
  | [], outs, last, _ => Except.ok (outs, last)
  | (num, c) :: rest, outs, last, splitted =>
    let outs1 := outs.set num ((outs.getD num []).set c (last.getD c 0))
    let last1 := last.set c 0
    if c ∈ splitted then Except.error (outs1, last1)
    else ComponentSplitter.move_loop rest outs1 last1 (splitted ++ [c])

/-- ComponentSplitter._run: mix all inputs into the last output, then run
the move loop over the flattened split keys with an empty splitted list. -/
def ComponentSplitter.run (keys : List (List ℕ)) (ins : List (List ℚ))
    (outs0 : List (List ℚ)) (m : ℕ) :
    Except (List (List ℚ) × List ℚ) (List (List ℚ) × List ℚ) :=
  ComponentSplitter.move_loop (ComponentSplitter.flat_keys keys) outs0
    (ComponentSplitter.mix_from ins m) []

/-- Helper: the flattened key components are the concatenation of the
groups, whatever the starting group number. -/
theorem flat_keys_from_map_snd (keys : List (List ℕ)) :
    ∀ i, (ComponentSplitter.flat_keys_from i keys).map Prod.snd = keys.join := by
  induction keys with
  | nil => intro i; rfl
  | cons g rest ih =>
    intro i
    simp [ComponentSplitter.flat_keys_from, ih (i + 1)]

/-- Helper: a successful move loop implies the processed components were
pairwise distinct and disjoint from the accumulator. -/
theorem move_loop_ok_nodup (l : List (ℕ × ℕ)) :
    ∀ (outs : List (List ℚ)) (last : List ℚ) (splitted : List ℕ)
      (r : List (List ℚ) × List ℚ),
      ComponentSplitter.move_loop l outs last splitted = Except.ok r →
      (l.map Prod.snd).Nodup ∧ ∀ c ∈ l.map Prod.snd, c ∉ splitted := by
  induction l with
  | nil =>
    intro _ _ _ _ _
    exact ⟨List.nodup_nil, by simp⟩
  | cons p rest ih =>
    intro outs last splitted r h
    obtain ⟨num, c⟩ := p
    simp only [ComponentSplitter.move_loop] at h
    by_cases hc : c ∈ splitted
    · rw [if_pos hc] at h
      exact Except.noConfusion h
    · rw [if_neg hc] at h
      obtain ⟨hnd, hall⟩ := ih _ _ _ _ h
      refine ⟨?_, ?_⟩
      · rw [List.map_cons, List.nodup_cons]
        exact ⟨fun hmem => (hall c hmem) (by simp), hnd⟩
      · intro x hx
        rw [List.map_cons, List.mem_cons] at hx
        rcases hx with rfl | hx
        · exact hc
        · intro hxs
          exact (hall x hx) (List.mem_append_left _ hxs)

/-- C3 counterexample: split keys [[0], [0, 1]] (component 0 in two
groups) on input masses [10, 5]: the run raises the duplication error,
but only inside the run loop and after output 0 has already received the
mass of component 0, so the outputs are not left as they started. -/
theorem component_splitter_run_counterexample :
    ComponentSplitter.run [[0], [0, 1]] [[10, 5]] [[0, 0], [0, 0]] 2
      = Except.error ([[10, 0], [0, 0]], [0, 5]) ∧
    ([[10, 0], [0, 0]] : List (List ℚ)) ≠ [[0, 0], [0, 0]] := by
  refine ⟨?_, by simp⟩
  norm_num [ComponentSplitter.run, ComponentSplitter.flat_keys,
    ComponentSplitter.flat_keys_from, ComponentSplitter.move_loop,
    ComponentSplitter.mix_from, List.replicate]

/-- C3 amended: when any component appears more than once across the
split-key groups (in particular in more than one group), the run raises
the duplication error, as a runtime error of the run itself; the error
state carries the outputs as already mutated by the moves performed
before the duplicate was detected. -/
theorem component_splitter_duplicate_errors (keys : List (List ℕ))
    (ins : List (List ℚ)) (outs0 : List (List ℚ)) (m : ℕ)
    (hdup : ¬ keys.join.Nodup) :
    ∃ p, ComponentSplitter.run keys ins outs0 m = Except.error p := by
  cases h : ComponentSplitter.run keys ins outs0 m with
  | error p => exact ⟨p, rfl⟩
  | ok r =>
    have hnd := (move_loop_ok_nodup _ _ _ _ _ h).1
    rw [ComponentSplitter.flat_keys, flat_keys_from_map_snd keys 0] at hnd
    exact absurd hnd hdup

/-- C3 witness: the duplication in [[0], [0, 1]] makes the run error. -/
theorem component_splitter_duplicate_errors_witness :
    (¬ ([[0], [0, 1]] : List (List ℕ)).join.Nodup) ∧
    (∃ p, ComponentSplitter.run [[0], [0, 1]] [[10, 5]] [[0, 0], [0, 0]] 2
      = Except.error p) :=
  ⟨by decide, component_splitter_duplicate_errors [[0], [0, 1]] [[10, 5]]
    [[0, 0], [0, 0]] 2 (by decide)⟩

/-- ComponentSplitter.__init__ restricted to split_keys handling: an
empty collection is rejected; otherwise the number of outputs is fixed
as the number of key groups plus one (the remainder output), and the
keys are stored. -/
def ComponentSplitter.mk_keys (split_keys : List (List ℕ)) :
    Except String (ℕ × List (List ℕ)) :=
  if split_keys.isEmpty then Except.error "split_keys cannot be empty"
  else Except.ok (split_keys.length + 1, split_keys)

/-- The split_keys property setter: n_outs is the number of outlet
streams of the unit (for a default-constructed unit, the original number
of key groups plus one); the new collection is rejected unless its
length equals n_outs. -/
def ComponentSplitter.set_split_keys (n_outs : ℕ) (i : List (List ℕ)) :
    Except String (List (List ℕ)) :=
  if i.length ≠ n_outs then
    Except.error "Size of split_keys cannot be changed after initiation"
  else Except.ok i

/-- C7: construction with empty split keys is rejected; but the setter
compares the new length with the number of outlets, which is the
original length plus one, so a same-size replacement is rejected with
the size-cannot-change error while a replacement one longer (an actual
size change) is accepted. -/
theorem component_splitter_keys_resize_bug :
    ComponentSplitter.mk_keys [] = Except.error "split_keys cannot be empty" ∧
    ComponentSplitter.mk_keys [[0], [1]] = Except.ok (3, [[0], [1]]) ∧
    ComponentSplitter.set_split_keys 3 [[2], [3]]
      = Except.error "Size of split_keys cannot be changed after initiation" ∧
    ([[2], [3]] : List (List ℕ)).length = ([[0], [1]] : List (List ℕ)).length ∧
    ComponentSplitter.set_split_keys 3 [[2], [3], [4]] = Except.ok [[2], [3], [4]] :=
  ⟨rfl, rfl, rfl, rfl, rfl⟩
